import Mathlib

/-!
# Verification of the massa bootstrap graph codec and cipher boundary

Shallow embedding of:

* `massa-graph/src/bootstrapable_graph.rs` — the `BootstrapableGraph`
  aggregate and its serializer/deserializer pair (count-prefixed sequence of
  `ExportActiveBlock` records);
* `massa-cipher/src/decrypt.rs` — the `decrypt` function of the cipher
  boundary.

Bytes are modelled as `Nat` (each in `0..256` where produced by the code),
buffers as `List Nat`, fallible operations as `Except`.  The components of
the repository that are referenced but whose source is not part of the
visible tree (the bounded varint codec of `massa_serialization`, the digest
codec of `massa_hash`, the `ExportActiveBlock` element codec, the `encrypt`
side of the cipher and the AEAD primitive) are modelled from the spec; each
such definition carries a doc comment starting with `Modelled from the
spec:`.
-/

set_option maxHeartbeats 1000000

namespace Massa

/-- Modelled from the spec: the decode-error taxonomy of section 7 — a
range/bound violation (a decoded integer or count exceeds the configured
ceiling), truncation (fewer bytes remain than a field requires), and a
malformed boolean byte.  In the source these are `nom` errors with context
labels; only the class matters here. -/
inductive DeserError where
  | rangeViolation : DeserError
  | truncated : DeserError
  | malformedBool : DeserError
deriving DecidableEq, Repr

/-- The serialization-side error of `massa_serialization::SerializeError`
restricted to the variant used by `BootstrapableGraphSerializer::serialize`:
`NumberTooBig` with its message. -/
inductive SerializeError where
  | NumberTooBig : String → SerializeError
deriving DecidableEq, Repr

/-- A deserializer in the style of `nom`: consumes a prefix of the input and
returns the decoded value together with the remaining bytes, or a decode
error. -/
abbrev Dec (α : Type) : Type := List Nat → Except DeserError (α × List Nat)

/-- Sequencing of deserializers: run the first, feed its leftover input to
the second; the first error aborts (mirrors `nom::sequence::tuple`). -/
def pseq {α β : Type} (d1 : Dec α) (d2 : α → Dec β) : Dec β := fun data =>
  match d1 data with
  | .error e => .error e
  | .ok (a, rest) => d2 a rest

/-- A deserializer that consumes nothing and returns a fixed value (mirrors
the final `.map` of a `nom` parse chain). -/
def pureDec {α : Type} (v : α) : Dec α := fun data => .ok (v, data)

/-- `DecOkOn d enc v`: on any input starting with the bytes `enc`, the
deserializer `d` succeeds with value `v` and consumes exactly `enc`. -/
abbrev DecOkOn {α : Type} (d : Dec α) (enc : List Nat) (v : α) : Prop :=
  ∀ suffix, d (enc ++ suffix) = .ok (v, suffix)

/-- `DecTruncOn d enc`: on every strict prefix of the bytes `enc` (taken as
the whole input), the deserializer `d` fails with a truncation error. -/
abbrev DecTruncOn {α : Type} (d : Dec α) (enc : List Nat) : Prop :=
  ∀ k, k < enc.length → d (enc.take k) = .error DeserError.truncated

theorem pseq_decOk {α β : Type} {d1 : Dec α} {d2 : α → Dec β} {e1 e2 : List Nat}
    {v1 : α} {v2 : β} (h1 : DecOkOn d1 e1 v1) (h2 : DecOkOn (d2 v1) e2 v2) :
    DecOkOn (pseq d1 d2) (e1 ++ e2) v2 := by
  intro suffix
  unfold pseq
  rw [List.append_assoc, h1 (e2 ++ suffix)]
  exact h2 suffix

theorem pseq_decTrunc {α β : Type} {d1 : Dec α} {d2 : α → Dec β} {e1 e2 : List Nat}
    {v1 : α} (h1 : DecOkOn d1 e1 v1) (h1t : DecTruncOn d1 e1)
    (h2t : DecTruncOn (d2 v1) e2) : DecTruncOn (pseq d1 d2) (e1 ++ e2) := by
  intro k hk
  rw [List.length_append] at hk
  rcases Nat.lt_or_ge k e1.length with hlt | hge
  · rw [List.take_append_of_le_length (Nat.le_of_lt hlt)]
    unfold pseq
    rw [h1t k hlt]
  · rw [List.take_append_eq_append_take, List.take_of_length_le hge]
    unfold pseq
    rw [h1 (e2.take (k - e1.length))]
    exact h2t (k - e1.length) (by omega)

/-- Modelled from the spec: the compact variable-length (base-128,
little-endian, continuation-bit) encoding of an unsigned integer used by
`massa_serialization`'s `U32VarIntSerializer`/`U64VarIntSerializer`.
Structural fuel version; `varIntEncode` supplies always-sufficient fuel. -/
def varIntEncodeAux : Nat → Nat → List Nat
  | 0, _ => []
  | fuel + 1, n =>
    if n < 128 then [n] else (n % 128 + 128) :: varIntEncodeAux fuel (n / 128)

/-- Modelled from the spec: the varint encoding of `n`. -/
def varIntEncode (n : Nat) : List Nat := varIntEncodeAux (n + 1) n

theorem varIntEncodeAux_irrel (n : Nat) : ∀ f1 f2 : Nat, n < f1 → n < f2 →
    varIntEncodeAux f1 n = varIntEncodeAux f2 n := by
  induction n using Nat.strong_induction_on with
  | _ n ih =>
    intro f1 f2 h1 h2
    obtain ⟨g1, rfl⟩ : ∃ g, f1 = g + 1 := ⟨f1 - 1, by omega⟩
    obtain ⟨g2, rfl⟩ : ∃ g, f2 = g + 1 := ⟨f2 - 1, by omega⟩
    simp only [varIntEncodeAux]
    by_cases h : n < 128
    · simp [h]
    · simp only [h, if_false]
      have hd : n / 128 < n := Nat.div_lt_self (by omega) (by omega)
      rw [ih (n / 128) hd g1 g2 (by omega) (by omega)]

/-- One-step unfolding of `varIntEncode` hiding the fuel. -/
theorem varIntEncode_eq (n : Nat) :
    varIntEncode n =
      if n < 128 then [n] else (n % 128 + 128) :: varIntEncode (n / 128) := by
  by_cases h : n < 128
  · rw [if_pos h]
    simp [varIntEncode, varIntEncodeAux, h]
  · rw [if_neg h]
    have h1 : varIntEncodeAux (n + 1) n = (n % 128 + 128) :: varIntEncodeAux n (n / 128) := by
      simp [varIntEncodeAux, h]
    have hd : n / 128 < n := Nat.div_lt_self (by omega) (by omega)
    rw [varIntEncode, h1,
      varIntEncodeAux_irrel (n / 128) n (n / 128 + 1) (by omega) (by omega)]
    rfl

/-- The varint encoding of a value below `128 ^ (k + 1)` takes at most
`k + 1` bytes. -/
theorem varIntEncode_length (k : Nat) : ∀ n, n < 128 ^ (k + 1) →
    (varIntEncode n).length ≤ k + 1 := by
  induction k with
  | zero =>
    intro n h
    rw [varIntEncode_eq, if_pos (by simpa using h)]
    simp
  | succ k ih =>
    intro n h
    rw [varIntEncode_eq]
    by_cases hn : n < 128
    · simp [hn]
    · rw [if_neg hn]
      have : n / 128 < 128 ^ (k + 1) := by
        rw [Nat.div_lt_iff_lt_mul (by omega)]
        calc n < 128 ^ (k + 1 + 1) := h
        _ = 128 ^ (k + 1) * 128 := by ring
      simpa using ih (n / 128) this

/-- Modelled from the spec: the varint decoder core of
`massa_serialization`.  Reads continuation-bit bytes, accumulating base-128
little-endian digits; an empty input is a truncation error, and running out
of fuel (too many continuation bytes for the integer width) is an
out-of-representable-range error. -/
def varIntDecodeCore : Nat → List Nat → Except DeserError (Nat × List Nat)
  | _, [] => .error DeserError.truncated
  | 0, _ :: _ => .error DeserError.rangeViolation
  | fuel + 1, b :: rest =>
    if b < 128 then .ok (b, rest)
    else
      match varIntDecodeCore fuel rest with
      | .ok (v, r) => .ok (b - 128 + 128 * v, r)
      | .error e => .error e

/-- Decoding an encoded varint succeeds, returns the encoded value and
consumes exactly its encoding, whenever the fuel covers the encoding. -/
theorem varIntDecode_encode (n : Nat) : ∀ (fuel : Nat) (suffix : List Nat),
    (varIntEncode n).length ≤ fuel →
    varIntDecodeCore fuel (varIntEncode n ++ suffix) = .ok (n, suffix) := by
  induction n using Nat.strong_induction_on with
  | _ n ih =>
    intro fuel suffix hf
    rw [varIntEncode_eq] at hf ⊢
    by_cases h : n < 128
    · rw [if_pos h] at hf ⊢
      obtain ⟨f, rfl⟩ : ∃ f, fuel = f + 1 := ⟨fuel - 1, by simp at hf; omega⟩
      simp [varIntDecodeCore, h]
    · rw [if_neg h] at hf ⊢
      simp only [List.length_cons] at hf
      obtain ⟨f, rfl⟩ : ∃ f, fuel = f + 1 := ⟨fuel - 1, by omega⟩
      have hb : ¬ n % 128 + 128 < 128 := by omega
      simp only [List.cons_append, varIntDecodeCore, hb, if_false, List.append_eq]
      have hd : n / 128 < n := Nat.div_lt_self (by omega) (by omega)
      rw [ih (n / 128) hd f suffix (by omega)]
      simp
      omega

/-- Decoding any strict prefix of an encoded varint fails with a truncation
error, whenever the fuel covers the prefix length. -/
theorem varIntDecode_take (n : Nat) : ∀ (fuel k : Nat),
    k < (varIntEncode n).length → k ≤ fuel →
    varIntDecodeCore fuel ((varIntEncode n).take k) = .error DeserError.truncated := by
  induction n using Nat.strong_induction_on with
  | _ n ih =>
    intro fuel k hk hf
    rw [varIntEncode_eq] at hk ⊢
    by_cases h : n < 128
    · rw [if_pos h] at hk ⊢
      simp only [List.length_cons, List.length_nil] at hk
      have : k = 0 := by omega
      subst this
      simp [varIntDecodeCore]
    · rw [if_neg h] at hk ⊢
      simp only [List.length_cons] at hk
      match k, hf with
      | 0, _ => simp [varIntDecodeCore]
      | k + 1, hf =>
        obtain ⟨f, rfl⟩ : ∃ f, fuel = f + 1 := ⟨fuel - 1, by omega⟩
        have hb : ¬ n % 128 + 128 < 128 := by omega
        simp only [List.take_succ_cons, varIntDecodeCore, hb, if_false]
        have hd : n / 128 < n := Nat.div_lt_self (by omega) (by omega)
        rw [ih (n / 128) hd f k (by omega) (by omega)]

/-- Modelled from the spec: the range check a bounded varint deserializer
applies after decoding — a decoded value outside the caller-supplied
inclusive `[lo, hi]` range is a hard range-violation error, never silently
clamped. -/
def checkRange (lo hi : Nat) : Except DeserError (Nat × List Nat) →
    Except DeserError (Nat × List Nat)
  | .ok (v, rest) =>
    if lo ≤ v ∧ v ≤ hi then .ok (v, rest) else .error DeserError.rangeViolation
  | .error e => .error e

/-- Modelled from the spec: `massa_serialization::U32VarIntDeserializer`,
constructed with the inclusive range `[lo, hi]` (the source passes
`Included(lo), Included(hi)`).  A 32-bit varint occupies at most 5 bytes. -/
def U32VarIntDeserializer.deserialize (lo hi : Nat) : Dec Nat := fun data =>
  checkRange lo hi (varIntDecodeCore 5 data)

/-- Modelled from the spec: `massa_serialization::U64VarIntDeserializer`
with the inclusive range `[lo, hi]`.  A 64-bit varint occupies at most 10
bytes. -/
def U64VarIntDeserializer.deserialize (lo hi : Nat) : Dec Nat := fun data =>
  checkRange lo hi (varIntDecodeCore 10 data)

theorem u32VarInt_decOk {lo hi : Nat} (n : Nat) (h1 : lo ≤ n) (h2 : n ≤ hi)
    (h3 : hi < 2 ^ 32) :
    DecOkOn (U32VarIntDeserializer.deserialize lo hi) (varIntEncode n) n := by
  intro suffix
  have hlen : (varIntEncode n).length ≤ 5 := by
    apply varIntEncode_length 4
    have : (128 : Nat) ^ 5 = 34359738368 := by norm_num
    have h32 : (2 : Nat) ^ 32 = 4294967296 := by norm_num
    omega
  unfold U32VarIntDeserializer.deserialize
  rw [varIntDecode_encode n 5 suffix hlen]
  simp [checkRange, h1, h2]

theorem u32VarInt_decTrunc {lo hi : Nat} (n : Nat) (h3 : hi < 2 ^ 32) (h2 : n ≤ hi) :
    DecTruncOn (U32VarIntDeserializer.deserialize lo hi) (varIntEncode n) := by
  intro k hk
  have hlen : (varIntEncode n).length ≤ 5 := by
    apply varIntEncode_length 4
    have : (128 : Nat) ^ 5 = 34359738368 := by norm_num
    have h32 : (2 : Nat) ^ 32 = 4294967296 := by norm_num
    omega
  unfold U32VarIntDeserializer.deserialize
  rw [varIntDecode_take n 5 k hk (by omega)]
  rfl

theorem u64VarInt_decOk {lo hi : Nat} (n : Nat) (h1 : lo ≤ n) (h2 : n ≤ hi)
    (h3 : hi < 2 ^ 64) :
    DecOkOn (U64VarIntDeserializer.deserialize lo hi) (varIntEncode n) n := by
  intro suffix
  have hlen : (varIntEncode n).length ≤ 10 := by
    apply varIntEncode_length 9
    have : (128 : Nat) ^ 10 = 1180591620717411303424 := by norm_num
    have h64 : (2 : Nat) ^ 64 = 18446744073709551616 := by norm_num
    omega
  unfold U64VarIntDeserializer.deserialize
  rw [varIntDecode_encode n 10 suffix hlen]
  simp [checkRange, h1, h2]

theorem u64VarInt_decTrunc {lo hi : Nat} (n : Nat) (h3 : hi < 2 ^ 64) (h2 : n ≤ hi) :
    DecTruncOn (U64VarIntDeserializer.deserialize lo hi) (varIntEncode n) := by
  intro k hk
  have hlen : (varIntEncode n).length ≤ 10 := by
    apply varIntEncode_length 9
    have : (128 : Nat) ^ 10 = 1180591620717411303424 := by norm_num
    have h64 : (2 : Nat) ^ 64 = 18446744073709551616 := by norm_num
    omega
  unfold U64VarIntDeserializer.deserialize
  rw [varIntDecode_take n 10 k hk (by omega)]
  rfl

/-- Modelled from the spec: the digest codec of `massa_hash`
(`HashDeserializer`): a fixed-width 32-byte opaque identifier; decode
requires at least 32 bytes remaining or fails with a
missing-content/truncation error, and validates nothing else. -/
def HashDeserializer.deserialize : Dec (List Nat) := fun data =>
  if 32 ≤ data.length then .ok (data.take 32, data.drop 32)
  else .error DeserError.truncated

theorem hash_decOk {id : List Nat} (hid : id.length = 32) :
    DecOkOn HashDeserializer.deserialize id id := by
  intro suffix
  unfold HashDeserializer.deserialize
  rw [if_pos (by simp [hid])]
  rw [← hid, List.take_left, List.drop_left]

theorem hash_decTrunc {id : List Nat} (hid : id.length = 32) :
    DecTruncOn HashDeserializer.deserialize id := by
  intro k hk
  rw [hid] at hk
  unfold HashDeserializer.deserialize
  rw [if_neg (by simp; omega)]

/-- Modelled from the spec: the single-byte boolean encoding of section 6:
`true` is `0x01`, `false` is `0x00`. -/
def serializeBool (b : Bool) : List Nat := [cond b 1 0]

/-- Modelled from the spec: single-byte boolean decode; any byte other than
`0x00`/`0x01` is a malformed-boolean decode error, never silently
coerced. -/
def boolDeserialize : Dec Bool := fun data =>
  match data with
  | [] => .error DeserError.truncated
  | 0 :: rest => .ok (false, rest)
  | 1 :: rest => .ok (true, rest)
  | _ :: _ => .error DeserError.malformedBool

theorem bool_decOk (b : Bool) : DecOkOn boolDeserialize (serializeBool b) b := by
  intro suffix
  cases b <;> rfl

theorem bool_decTrunc (b : Bool) : DecTruncOn boolDeserialize (serializeBool b) := by
  intro k hk
  have : k = 0 := by cases b <;> simpa [serializeBool] using hk
  subst this
  simp [boolDeserialize]

/-- Modelled from the spec: the opaque block-payload capability of section 9
— block content is out of this core's scope and plugs in through a
serialize/deserialize interface; the graph codec never inspects it. -/
structure PayloadCodec (P : Type) where
  ser : P → List Nat
  deser : Dec P

/-- The payload codec contract used by the round-trip law: decoding an
encoded payload succeeds, returns the payload and consumes exactly its
encoding. -/
abbrev PayloadRoundTrip {P : Type} (pc : PayloadCodec P) : Prop :=
  ∀ p, DecOkOn pc.deser (pc.ser p) p

/-- The payload codec contract used by truncation safety: decoding any
strict prefix of an encoded payload fails with a truncation error. -/
abbrev PayloadTruncFail {P : Type} (pc : PayloadCodec P) : Prop :=
  ∀ p, DecTruncOn pc.deser (pc.ser p)

/-- The export form of an active block (`ExportActiveBlock` of
`massa-graph`), modelled from the spec's data model: a 32-byte block id, an
ordered sequence of `(parent block id, period)` pairs — exactly one per
thread — a finality flag, and the opaque payload. -/
structure ExportActiveBlock (P : Type) where
  id : List Nat
  parents : List (List Nat × Nat)
  is_final : Bool
  payload : P
deriving DecidableEq

/-- Modelled from the spec: wire format of one parent reference,
`Digest(block_id) VarUint64(period)`. -/
def parentSerialize (pr : List Nat × Nat) : List Nat :=
  pr.1 ++ varIntEncode pr.2

/-- Modelled from the spec: decode one parent reference. -/
def parentDeserialize : Dec (List Nat × Nat) :=
  pseq HashDeserializer.deserialize (fun block_id =>
  pseq (U64VarIntDeserializer.deserialize 0 (2 ^ 64 - 1)) (fun period =>
  pureDec (block_id, period)))

/-- Decode exactly `n` consecutive elements with `d` (mirrors `nom`'s
`count`, and the element phase of `length_count`): fails fast on the first
element error. -/
def countDeserialize {α : Type} (d : Dec α) : Nat → Dec (List α)
  | 0 => pureDec []
  | n + 1 =>
    pseq d (fun x => pseq (countDeserialize d n) (fun xs => pureDec (x :: xs)))

/-- The configuration of `BootstrapableGraphDeserializer::new` — the
protocol ceilings threaded to every nested deserializer.  `thread_count` is
a `u8`, `max_datastore_value_length` a `u64`, `max_function_name_length` a
`u16`, the others `u32` in the source. -/
structure DeserializerArgs where
  thread_count : Nat
  endorsement_count : Nat
  max_bootstrap_blocks : Nat
  max_datastore_value_length : Nat
  max_function_name_length : Nat
  max_parameters_size : Nat
  max_operations_per_block : Nat
deriving DecidableEq

/-- Modelled from the spec: `ExportActiveBlockSerializer` — wire format
`Digest(id) Parent{thread_count} Bool(is_final) BlockPayload` (section 6);
the parents are a fixed-length sequence (no count prefix, the thread count
being a protocol constant), the payload uses its plugged-in serializer. -/
def ExportActiveBlockSerializer.serialize {P : Type} (pc : PayloadCodec P)
    (b : ExportActiveBlock P) : List Nat :=
  b.id ++ (b.parents.map parentSerialize).flatten ++ serializeBool b.is_final
    ++ pc.ser b.payload

/-- Modelled from the spec: `ExportActiveBlockDeserializer` — mirrors the
serializer field order; the parent sequence is decoded as exactly
`thread_count` pairs. -/
def ExportActiveBlockDeserializer.deserialize {P : Type} (cfg : DeserializerArgs)
    (pc : PayloadCodec P) : Dec (ExportActiveBlock P) :=
  pseq HashDeserializer.deserialize (fun block_id =>
  pseq (countDeserialize parentDeserialize cfg.thread_count) (fun parents =>
  pseq boolDeserialize (fun fin =>
  pseq pc.deser (fun payload =>
  pureDec ⟨block_id, parents, fin, payload⟩))))

/-- The bootstrap graph of `massa-graph/src/bootstrapable_graph.rs`: the
list of final blocks. -/
structure BootstrapableGraph (P : Type) where
  final_blocks : List (ExportActiveBlock P)
deriving DecidableEq

/-- The byte sequence `BootstrapableGraphSerializer::serialize` appends to
its buffer on success: the varint-encoded block count followed by each
block's serialization in order. -/
def bootstrapableGraphBytes {P : Type} (pc : PayloadCodec P)
    (g : BootstrapableGraph P) : List Nat :=
  varIntEncode g.final_blocks.length
    ++ (g.final_blocks.map (ExportActiveBlockSerializer.serialize pc)).flatten

/-- `BootstrapableGraphSerializer::serialize` (lines 68-90 of
`bootstrapable_graph.rs`): converts `final_blocks.len()` to `u32` — failing
with `SerializeError::NumberTooBig("Too many final blocks")` when it does
not fit — serializes the count as a 32-bit varint, then each final block in
order.  The element serializer is total here (its own failure modes live in
the out-of-scope payload codec). -/
def BootstrapableGraphSerializer.serialize {P : Type} (pc : PayloadCodec P)
    (value : BootstrapableGraph P) : Except SerializeError (List Nat) :=
  if value.final_blocks.length < 2 ^ 32 then .ok (bootstrapableGraphBytes pc value)
  else .error (SerializeError.NumberTooBig "Too many final blocks")

/-- `BootstrapableGraphDeserializer::deserialize` (lines 155-175 of
`bootstrapable_graph.rs`): `nom::multi::length_count` of a block count
decoded by a `U32VarIntDeserializer` bounded by
`[0, max_bootstrap_blocks]`, followed by exactly that many
`ExportActiveBlock` elements, mapped into a `BootstrapableGraph`. -/
def BootstrapableGraphDeserializer.deserialize {P : Type} (cfg : DeserializerArgs)
    (pc : PayloadCodec P) : Dec (BootstrapableGraph P) :=
  pseq (U32VarIntDeserializer.deserialize 0 cfg.max_bootstrap_blocks) (fun n =>
  pseq (countDeserialize (ExportActiveBlockDeserializer.deserialize cfg pc) n)
    (fun final_blocks =>
  pureDec ⟨final_blocks⟩))

/-- Validity of one exported block with respect to the configured thread
count: the id is a 32-byte digest, there is exactly one parent per thread,
and each parent is a 32-byte digest with a `u64` period. -/
abbrev validBlock {P : Type} (tc : Nat) (b : ExportActiveBlock P) : Prop :=
  b.id.length = 32 ∧ b.parents.length = tc ∧
    ∀ pr ∈ b.parents, pr.1.length = 32 ∧ pr.2 < 2 ^ 64

/-- Validity of a bootstrap graph with respect to the configured ceilings:
the block count is within `max_bootstrap_blocks` and every block is
valid. -/
abbrev validGraph {P : Type} (cfg : DeserializerArgs)
    (g : BootstrapableGraph P) : Prop :=
  g.final_blocks.length ≤ cfg.max_bootstrap_blocks ∧
    ∀ b ∈ g.final_blocks, validBlock cfg.thread_count b

theorem pureDec_decOk {α : Type} (v : α) : DecOkOn (pureDec v) [] v :=
  fun _ => rfl

theorem pureDec_decTrunc {α : Type} (v : α) : DecTruncOn (pureDec v) [] :=
  fun k hk => absurd hk (by simp)

theorem countDeserialize_decOk {α : Type} (d : Dec α) (enc : α → List Nat) :
    ∀ l : List α, (∀ x ∈ l, DecOkOn d (enc x) x) →
    DecOkOn (countDeserialize d l.length) (l.map enc).flatten l := by
  intro l
  induction l with
  | nil =>
    intro _ suffix
    simp [countDeserialize, pureDec]
  | cons x l ih =>
    intro h
    simp only [List.map_cons, List.flatten_cons, List.length_cons, countDeserialize]
    have hinner : DecOkOn
        (pseq (countDeserialize d l.length) (fun xs => pureDec (x :: xs)))
        ((l.map enc).flatten ++ []) (x :: l) :=
      pseq_decOk (ih (fun y hy => h y (List.mem_cons_of_mem x hy))) (pureDec_decOk (x :: l))
    rw [List.append_nil] at hinner
    exact pseq_decOk (h x (List.mem_cons_self x l)) hinner

theorem countDeserialize_decTrunc {α : Type} (d : Dec α) (enc : α → List Nat) :
    ∀ l : List α, (∀ x ∈ l, DecOkOn d (enc x) x) → (∀ x ∈ l, DecTruncOn d (enc x)) →
    DecTruncOn (countDeserialize d l.length) (l.map enc).flatten := by
  intro l
  induction l with
  | nil =>
    intro _ _ k hk
    simp at hk
  | cons x l ih =>
    intro hok htr
    simp only [List.map_cons, List.flatten_cons, List.length_cons, countDeserialize]
    have hinner : DecTruncOn
        (pseq (countDeserialize d l.length) (fun xs => pureDec (x :: xs)))
        ((l.map enc).flatten ++ []) :=
      pseq_decTrunc
        (countDeserialize_decOk d enc l (fun y hy => hok y (List.mem_cons_of_mem x hy)))
        (ih (fun y hy => hok y (List.mem_cons_of_mem x hy))
          (fun y hy => htr y (List.mem_cons_of_mem x hy)))
        (pureDec_decTrunc (x :: l))
    rw [List.append_nil] at hinner
    exact pseq_decTrunc (hok x (List.mem_cons_self x l)) (htr x (List.mem_cons_self x l))
      hinner

theorem parent_decOk (bid : List Nat) (per : Nat) (hb : bid.length = 32)
    (hp : per < 2 ^ 64) :
    DecOkOn parentDeserialize (bid ++ varIntEncode per) (bid, per) := by
  unfold parentDeserialize
  have h2 : DecOkOn
      (pseq (U64VarIntDeserializer.deserialize 0 (2 ^ 64 - 1))
        (fun period => pureDec (bid, period)))
      (varIntEncode per ++ []) (bid, per) :=
    pseq_decOk (u64VarInt_decOk per (Nat.zero_le per) (by omega) (by omega))
      (pureDec_decOk (bid, per))
  rw [List.append_nil] at h2
  exact pseq_decOk (hash_decOk hb) h2

theorem parent_decTrunc (bid : List Nat) (per : Nat) (hb : bid.length = 32)
    (hp : per < 2 ^ 64) :
    DecTruncOn parentDeserialize (bid ++ varIntEncode per) := by
  unfold parentDeserialize
  have h2 : DecTruncOn
      (pseq (U64VarIntDeserializer.deserialize 0 (2 ^ 64 - 1))
        (fun period => pureDec (bid, period)))
      (varIntEncode per ++ []) :=
    pseq_decTrunc (u64VarInt_decOk per (Nat.zero_le per) (by omega) (by omega))
      (u64VarInt_decTrunc per (by omega) (by omega))
      (pureDec_decTrunc (bid, per))
  rw [List.append_nil] at h2
  exact pseq_decTrunc (hash_decOk hb) (hash_decTrunc hb) h2

theorem exportActiveBlock_decOk {P : Type} (cfg : DeserializerArgs)
    (pc : PayloadCodec P) (hpc : PayloadRoundTrip pc) (b : ExportActiveBlock P)
    (hb : validBlock cfg.thread_count b) :
    DecOkOn (ExportActiveBlockDeserializer.deserialize cfg pc)
      (ExportActiveBlockSerializer.serialize pc b) b := by
  obtain ⟨hid, hlen, hpar⟩ := hb
  have hparOk : ∀ pr ∈ b.parents, DecOkOn parentDeserialize (parentSerialize pr) pr := by
    intro pr hpr
    obtain ⟨h1, h2⟩ := hpar pr hpr
    obtain ⟨a, c⟩ := pr
    exact parent_decOk a c h1 h2
  unfold ExportActiveBlockSerializer.serialize ExportActiveBlockDeserializer.deserialize
  simp only [List.append_assoc]
  apply pseq_decOk (hash_decOk hid)
  rw [← hlen]
  apply pseq_decOk (countDeserialize_decOk parentDeserialize parentSerialize b.parents hparOk)
  apply pseq_decOk (bool_decOk b.is_final)
  have hlast : DecOkOn
      (pseq pc.deser (fun payload =>
        pureDec (ExportActiveBlock.mk b.id b.parents b.is_final payload)))
      (pc.ser b.payload ++ [])
      (ExportActiveBlock.mk b.id b.parents b.is_final b.payload) :=
    pseq_decOk (hpc b.payload)
      (pureDec_decOk (ExportActiveBlock.mk b.id b.parents b.is_final b.payload))
  rw [List.append_nil] at hlast
  exact hlast

theorem exportActiveBlock_decTrunc {P : Type} (cfg : DeserializerArgs)
    (pc : PayloadCodec P) (hpc : PayloadRoundTrip pc) (hpct : PayloadTruncFail pc)
    (b : ExportActiveBlock P) (hb : validBlock cfg.thread_count b) :
    DecTruncOn (ExportActiveBlockDeserializer.deserialize cfg pc)
      (ExportActiveBlockSerializer.serialize pc b) := by
  obtain ⟨hid, hlen, hpar⟩ := hb
  have hparOk : ∀ pr ∈ b.parents, DecOkOn parentDeserialize (parentSerialize pr) pr := by
    intro pr hpr
    obtain ⟨h1, h2⟩ := hpar pr hpr
    obtain ⟨a, c⟩ := pr
    exact parent_decOk a c h1 h2
  have hparTr : ∀ pr ∈ b.parents, DecTruncOn parentDeserialize (parentSerialize pr) := by
    intro pr hpr
    obtain ⟨h1, h2⟩ := hpar pr hpr
    obtain ⟨a, c⟩ := pr
    exact parent_decTrunc a c h1 h2
  unfold ExportActiveBlockSerializer.serialize ExportActiveBlockDeserializer.deserialize
  simp only [List.append_assoc]
  apply pseq_decTrunc (hash_decOk hid) (hash_decTrunc hid)
  rw [← hlen]
  apply pseq_decTrunc
    (countDeserialize_decOk parentDeserialize parentSerialize b.parents hparOk)
    (countDeserialize_decTrunc parentDeserialize parentSerialize b.parents hparOk hparTr)
  apply pseq_decTrunc (bool_decOk b.is_final) (bool_decTrunc b.is_final)
  have hlast : DecTruncOn
      (pseq pc.deser (fun payload =>
        pureDec (ExportActiveBlock.mk b.id b.parents b.is_final payload)))
      (pc.ser b.payload ++ []) :=
    pseq_decTrunc (hpc b.payload) (hpct b.payload)
      (pureDec_decTrunc (ExportActiveBlock.mk b.id b.parents b.is_final b.payload))
  rw [List.append_nil] at hlast
  exact hlast

theorem bootstrapableGraph_decOk {P : Type} (cfg : DeserializerArgs)
    (pc : PayloadCodec P) (hpc : PayloadRoundTrip pc) (g : BootstrapableGraph P)
    (hg : validGraph cfg g) (hmax : cfg.max_bootstrap_blocks < 2 ^ 32) :
    DecOkOn (BootstrapableGraphDeserializer.deserialize cfg pc)
      (bootstrapableGraphBytes pc g) g := by
  obtain ⟨hcount, hblocks⟩ := hg
  unfold BootstrapableGraphDeserializer.deserialize bootstrapableGraphBytes
  apply pseq_decOk (u32VarInt_decOk g.final_blocks.length (Nat.zero_le _) hcount hmax)
  have hinner : DecOkOn
      (pseq (countDeserialize (ExportActiveBlockDeserializer.deserialize cfg pc)
        g.final_blocks.length)
        (fun final_blocks => pureDec (BootstrapableGraph.mk final_blocks)))
      ((g.final_blocks.map (ExportActiveBlockSerializer.serialize pc)).flatten ++ [])
      (BootstrapableGraph.mk g.final_blocks) :=
    pseq_decOk
      (countDeserialize_decOk (ExportActiveBlockDeserializer.deserialize cfg pc)
        (ExportActiveBlockSerializer.serialize pc) g.final_blocks
        (fun b hb => exportActiveBlock_decOk cfg pc hpc b (hblocks b hb)))
      (pureDec_decOk (BootstrapableGraph.mk g.final_blocks))
  rw [List.append_nil] at hinner
  exact hinner

theorem bootstrapableGraph_decTrunc {P : Type} (cfg : DeserializerArgs)
    (pc : PayloadCodec P) (hpc : PayloadRoundTrip pc) (hpct : PayloadTruncFail pc)
    (g : BootstrapableGraph P) (hg : validGraph cfg g)
    (hmax : cfg.max_bootstrap_blocks < 2 ^ 32) :
    DecTruncOn (BootstrapableGraphDeserializer.deserialize cfg pc)
      (bootstrapableGraphBytes pc g) := by
  obtain ⟨hcount, hblocks⟩ := hg
  unfold BootstrapableGraphDeserializer.deserialize bootstrapableGraphBytes
  apply pseq_decTrunc (u32VarInt_decOk g.final_blocks.length (Nat.zero_le _) hcount hmax)
    (u32VarInt_decTrunc g.final_blocks.length hmax hcount)
  have hinner : DecTruncOn
      (pseq (countDeserialize (ExportActiveBlockDeserializer.deserialize cfg pc)
        g.final_blocks.length)
        (fun final_blocks => pureDec (BootstrapableGraph.mk final_blocks)))
      ((g.final_blocks.map (ExportActiveBlockSerializer.serialize pc)).flatten ++ []) :=
    pseq_decTrunc
      (countDeserialize_decOk (ExportActiveBlockDeserializer.deserialize cfg pc)
        (ExportActiveBlockSerializer.serialize pc) g.final_blocks
        (fun b hb => exportActiveBlock_decOk cfg pc hpc b (hblocks b hb)))
      (countDeserialize_decTrunc (ExportActiveBlockDeserializer.deserialize cfg pc)
        (ExportActiveBlockSerializer.serialize pc) g.final_blocks
        (fun b hb => exportActiveBlock_decOk cfg pc hpc b (hblocks b hb))
        (fun b hb => exportActiveBlock_decTrunc cfg pc hpc hpct b (hblocks b hb)))
      (pureDec_decTrunc (BootstrapableGraph.mk g.final_blocks))
  rw [List.append_nil] at hinner
  exact hinner

/-- The trivial payload codec used as a concrete instantiation of the opaque
payload interface: the payload carries no bytes. -/
def unitPayloadCodec : PayloadCodec Unit where
  ser := fun _ => []
  deser := fun data => .ok ((), data)

/-- The concrete deserializer configuration used by the witnesses: the
ceilings of the doc example of `bootstrapable_graph.rs` (thread count 2 for
brevity). -/
def witnessArgs : DeserializerArgs :=
  ⟨2, 9, 10, 10, 100, 1000, 1000⟩

/-- The concrete one-block graph used by the witnesses: one final block with
a 32-byte id, one parent per thread with period 7, marked final. -/
def witnessGraph : BootstrapableGraph Unit :=
  ⟨[⟨List.replicate 32 0,
     [(List.replicate 32 1, 7), (List.replicate 32 1, 7)], true, ()⟩]⟩

/-- C1.  For every `BootstrapableGraph` whose block count and nested fields
are within the configured ceilings (and whose opaque payload codec
round-trips exactly), `BootstrapableGraphSerializer::serialize` succeeds
producing `bootstrapableGraphBytes`, and
`BootstrapableGraphDeserializer::deserialize` on those bytes succeeds,
consumes the whole buffer and returns the graph itself — hence
re-serializing the result yields the byte-identical
`bootstrapableGraphBytes pc g` again, by the first conjunct. -/
theorem bootstrapable_graph_roundtrip {P : Type} (cfg : DeserializerArgs)
    (pc : PayloadCodec P) (hpc : PayloadRoundTrip pc) (g : BootstrapableGraph P)
    (hg : validGraph cfg g) (hmax : cfg.max_bootstrap_blocks < 2 ^ 32) :
    BootstrapableGraphSerializer.serialize pc g = .ok (bootstrapableGraphBytes pc g)
    ∧ BootstrapableGraphDeserializer.deserialize cfg pc (bootstrapableGraphBytes pc g)
      = .ok (g, []) := by
  constructor
  · unfold BootstrapableGraphSerializer.serialize
    rw [if_pos (by omega : g.final_blocks.length < 2 ^ 32)]
  · have h := bootstrapableGraph_decOk cfg pc hpc g hg hmax []
    rwa [List.append_nil] at h

/-- Witness for C1 at a concrete configuration, payload codec and
one-block graph. -/
theorem bootstrapable_graph_roundtrip_witness :
    BootstrapableGraphSerializer.serialize unitPayloadCodec witnessGraph
      = .ok (bootstrapableGraphBytes unitPayloadCodec witnessGraph)
    ∧ BootstrapableGraphDeserializer.deserialize witnessArgs unitPayloadCodec
        (bootstrapableGraphBytes unitPayloadCodec witnessGraph)
      = .ok (witnessGraph, []) :=
  bootstrapable_graph_roundtrip witnessArgs unitPayloadCodec
    (fun _ _ => rfl) witnessGraph (by decide) (by decide)

/-- C3.  A buffer whose leading varint block count exceeds the configured
`max_bootstrap_blocks` ceiling (while still a 32-bit value) fails with a
range-violation error, whatever bytes follow the count — in particular
before any block element is decoded. -/
theorem deserialize_count_over_ceiling_range_violation {P : Type}
    (cfg : DeserializerArgs) (pc : PayloadCodec P) (c : Nat) (rest : List Nat)
    (hc : cfg.max_bootstrap_blocks < c) (hc32 : c < 2 ^ 32) :
    BootstrapableGraphDeserializer.deserialize cfg pc (varIntEncode c ++ rest)
      = .error DeserError.rangeViolation := by
  have hlen : (varIntEncode c).length ≤ 5 := by
    apply varIntEncode_length 4
    have h5 : (128 : Nat) ^ 5 = 34359738368 := by norm_num
    have h32 : (2 : Nat) ^ 32 = 4294967296 := by norm_num
    omega
  have hu : U32VarIntDeserializer.deserialize 0 cfg.max_bootstrap_blocks
      (varIntEncode c ++ rest) = .error DeserError.rangeViolation := by
    unfold U32VarIntDeserializer.deserialize
    rw [varIntDecode_encode c 5 rest hlen]
    simp only [checkRange]
    rw [if_neg (by omega : ¬ (0 ≤ c ∧ c ≤ cfg.max_bootstrap_blocks))]
  unfold BootstrapableGraphDeserializer.deserialize pseq
  rw [hu]

/-- Witness for C3: ceiling 10, encoded count 11, empty tail. -/
theorem deserialize_count_over_ceiling_range_violation_witness :
    BootstrapableGraphDeserializer.deserialize witnessArgs unitPayloadCodec
      (varIntEncode 11 ++ []) = .error DeserError.rangeViolation :=
  deserialize_count_over_ceiling_range_violation witnessArgs unitPayloadCodec 11 []
    (by decide) (by decide)

/-- C4.  For every valid serialized buffer (the serialization of a graph
within the ceilings, under a payload codec that consumes exactly and fails
with truncation on payload prefixes), decoding any strict prefix of the
buffer fails with the truncation error — in particular it never returns a
partially-populated graph, and totality of the embedding models absence of
panics. -/
theorem deserialize_strict_prefix_truncated {P : Type} (cfg : DeserializerArgs)
    (pc : PayloadCodec P) (hpc : PayloadRoundTrip pc) (hpct : PayloadTruncFail pc)
    (g : BootstrapableGraph P) (hg : validGraph cfg g)
    (hmax : cfg.max_bootstrap_blocks < 2 ^ 32) (k : Nat)
    (hk : k < (bootstrapableGraphBytes pc g).length) :
    BootstrapableGraphDeserializer.deserialize cfg pc
      ((bootstrapableGraphBytes pc g).take k) = .error DeserError.truncated :=
  bootstrapableGraph_decTrunc cfg pc hpc hpct g hg hmax k hk

/-- Witness for C4: the empty strict prefix of the witness graph's
serialization. -/
theorem deserialize_strict_prefix_truncated_witness :
    BootstrapableGraphDeserializer.deserialize witnessArgs unitPayloadCodec
      ((bootstrapableGraphBytes unitPayloadCodec witnessGraph).take 0)
      = .error DeserError.truncated :=
  deserialize_strict_prefix_truncated witnessArgs unitPayloadCodec
    (fun _ _ => rfl) (fun p k hk => absurd hk (by simp [unitPayloadCodec]))
    witnessGraph (by decide) (by decide) 0 (by decide)

/-- C6.  `BootstrapableGraphSerializer::serialize` fails with the local
`SerializeError::NumberTooBig` overflow error — a type distinct from the
peer-input `DeserError` — exactly when `final_blocks.len()` does not fit in
the 32-bit count field, and succeeds whenever it does. -/
theorem serialize_overflow_iff {P : Type} (pc : PayloadCodec P)
    (g : BootstrapableGraph P) :
    (BootstrapableGraphSerializer.serialize pc g
        = .ok (bootstrapableGraphBytes pc g)
      ↔ g.final_blocks.length < 2 ^ 32)
    ∧ (BootstrapableGraphSerializer.serialize pc g
        = .error (SerializeError.NumberTooBig "Too many final blocks")
      ↔ 2 ^ 32 ≤ g.final_blocks.length) := by
  unfold BootstrapableGraphSerializer.serialize
  by_cases h : g.final_blocks.length < 2 ^ 32
  · rw [if_pos h]
    refine ⟨⟨fun _ => h, fun _ => rfl⟩, ⟨fun hcontra => ?_, fun hle => absurd hle (by omega)⟩⟩
    exact absurd hcontra (by simp)
  · rw [if_neg h]
    rw [Nat.not_lt] at h
    refine ⟨⟨fun hcontra => ?_, fun hlt => absurd hlt (by omega)⟩, ⟨fun _ => h, fun _ => rfl⟩⟩
    exact absurd hcontra (by simp)

/-- C7.  Serializing the graph with `final_blocks = []` yields exactly the
varint encoding of the 32-bit count 0 — the single byte `0x00` — and
deserializing that buffer yields `final_blocks = []` with zero remaining
bytes, under any configuration and payload codec. -/
theorem serialize_empty_graph_concrete {P : Type} (pc : PayloadCodec P)
    (cfg : DeserializerArgs) :
    BootstrapableGraphSerializer.serialize pc ⟨[]⟩ = .ok (varIntEncode 0)
    ∧ varIntEncode 0 = [0]
    ∧ BootstrapableGraphDeserializer.deserialize cfg pc [0]
      = .ok ((⟨[]⟩ : BootstrapableGraph P), []) := by
  have h0 : varIntEncode 0 = [0] := by
    rw [varIntEncode_eq, if_pos (by norm_num)]
  refine ⟨?_, h0, ?_⟩
  · unfold BootstrapableGraphSerializer.serialize bootstrapableGraphBytes
    rw [if_pos (by norm_num)]
    simp
  · have hu : U32VarIntDeserializer.deserialize 0 cfg.max_bootstrap_blocks [0]
        = .ok (0, []) := by
      unfold U32VarIntDeserializer.deserialize
      rw [show varIntDecodeCore 5 [0] = .ok (0, []) from rfl]
      simp [checkRange]
    unfold BootstrapableGraphDeserializer.deserialize pseq
    rw [hu]
    rfl

/-- The error type of `massa-cipher` (`CipherError`), restricted to the
variant used by `decrypt`: `DecryptionError` with its message. -/
inductive CipherError where
  | DecryptionError : String → CipherError
deriving DecidableEq, Repr

/-- Modelled from the spec: the hashing primitive
(`massa_hash::Hash::compute_from`) is an opaque fixed-width 32-byte digest
function; this concrete stand-in keeps only the interface (32 output bytes,
input-dependent). -/
def hashCompute (data : List Nat) : List Nat :=
  List.replicate 32 ((data.sum + data.length) % 256)

/-- Modelled from the spec: the 16-byte authentication tag of the AEAD
primitive (AES-256-GCM-SIV), an opaque function of key, nonce and
message. -/
def aeadTag (key nonce msg : List Nat) : List Nat :=
  List.replicate 16 ((2 * key.sum + 3 * nonce.sum + 5 * msg.sum + 7 * msg.length) % 256)

/-- Modelled from the spec: AEAD authenticated encryption — the ciphertext
carries the message followed by its 16-byte tag, so valid ciphertexts are
at least 16 bytes long. -/
def aeadEncrypt (key nonce msg : List Nat) : List Nat :=
  msg ++ aeadTag key nonce msg

/-- Modelled from the spec: AEAD authenticated decryption — requires at
least the 16-byte tag, recomputes and checks it, and returns the message;
any mismatch (wrong key, wrong nonce, tampered bytes, missing tag)
fails. -/
def aeadDecrypt (key nonce ct : List Nat) : Option (List Nat) :=
  if 16 ≤ ct.length then
    if ct.drop (ct.length - 16) = aeadTag key nonce (ct.take (ct.length - 16)) then
      some (ct.take (ct.length - 16))
    else none
  else none

/-- The Rust slice lookup `data.get(..n)`: the first `n` bytes when the
buffer holds at least `n`, and `None` otherwise. -/
def getRangeTo (data : List Nat) (n : Nat) : Option (List Nat) :=
  if n ≤ data.length then some (data.take n) else none

/-- `decrypt` of `massa-cipher/src/decrypt.rs`, line by line: derive the
key from the password hash; read the nonce as `data.get(..12)` (failing
with "Missing nonce"); read the AEAD input — as in the source — again as
`data.get(..12)` (failing with "Missing content"); AEAD-decrypt, mapping
any failure to the generic "Wrong password" error. -/
def decrypt (password data : List Nat) : Except CipherError (List Nat) :=
  let key := hashCompute password
  match getRangeTo data 12 with
  | none => .error (CipherError.DecryptionError "Missing nonce")
  | some nonce =>
    match getRangeTo data 12 with
    | none => .error (CipherError.DecryptionError "Missing content")
    | some content =>
      match aeadDecrypt key nonce content with
      | none => .error (CipherError.DecryptionError "Wrong password")
      | some decrypted_bytes => .ok decrypted_bytes

/-- Modelled from the spec: `encrypt` of `massa-cipher` — derives the key
from the password digest, uses a fresh random 12-byte nonce (passed
explicitly here, randomness being environmental), authenticates-and-
encrypts, and prepends the nonce to the ciphertext. -/
def encrypt (password nonce plaintext : List Nat) : List Nat :=
  nonce ++ aeadEncrypt (hashCompute password) nonce plaintext

/-- Modelled from the spec: the intended decrypt of section 9 — identical
to `decrypt` except that AEAD decryption receives the bytes after the
nonce (`data.get(12..)`), as the spec states the contract. -/
def decryptIntended (password data : List Nat) : Except CipherError (List Nat) :=
  let key := hashCompute password
  match getRangeTo data 12 with
  | none => .error (CipherError.DecryptionError "Missing nonce")
  | some nonce =>
    match aeadDecrypt key nonce (data.drop 12) with
    | none => .error (CipherError.DecryptionError "Wrong password")
    | some decrypted_bytes => .ok decrypted_bytes

/-- The modelled AEAD satisfies its contract: decryption under the same
key and nonce recovers the message. -/
theorem aeadDecrypt_aeadEncrypt (key nonce m : List Nat) :
    aeadDecrypt key nonce (aeadEncrypt key nonce m) = some m := by
  unfold aeadDecrypt aeadEncrypt
  have hlen : (m ++ aeadTag key nonce m).length = m.length + 16 := by
    simp [aeadTag]
  rw [if_pos (by omega)]
  have hsub : (m ++ aeadTag key nonce m).length - 16 = m.length := by omega
  rw [hsub, List.take_left, List.drop_left, if_pos rfl]

/-- On inputs of at least 12 bytes, `decrypt` reduces to the AEAD step
applied — as the source does — to the first 12 bytes both as nonce and as
ciphertext. -/
theorem decrypt_eq_of_length (password data : List Nat) (h : 12 ≤ data.length) :
    decrypt password data =
      match aeadDecrypt (hashCompute password) (data.take 12) (data.take 12) with
      | none => .error (CipherError.DecryptionError "Wrong password")
      | some decrypted_bytes => .ok decrypted_bytes := by
  unfold decrypt getRangeTo
  rw [if_pos h]

/-- The code as written never successfully decrypts its own encryption:
the AEAD step receives the 12-byte nonce as ciphertext, which is shorter
than the 16-byte tag, so authentication always fails and the generic
error is returned. -/
theorem decrypt_encrypt_wrong_password (password nonce m : List Nat)
    (h : nonce.length = 12) :
    decrypt password (encrypt password nonce m)
      = .error (CipherError.DecryptionError "Wrong password") := by
  have hlen : 12 ≤ (encrypt password nonce m).length := by
    simp [encrypt, aeadEncrypt, aeadTag, h]
  rw [decrypt_eq_of_length password (encrypt password nonce m) hlen]
  have htake : (encrypt password nonce m).take 12 = nonce := by
    unfold encrypt
    rw [← h, List.take_left]
  rw [htake]
  have hfail : aeadDecrypt (hashCompute password) nonce nonce = none := by
    unfold aeadDecrypt
    rw [if_neg (by omega)]
  rw [hfail]

/-- The intended decrypt of the spec round-trips with `encrypt`: the
defect is only in which bytes the source hands to the AEAD step. -/
theorem decryptIntended_encrypt_roundtrip (password nonce m : List Nat)
    (h : nonce.length = 12) :
    decryptIntended password (encrypt password nonce m) = .ok m := by
  have hlen : 12 ≤ (encrypt password nonce m).length := by
    simp [encrypt, aeadEncrypt, aeadTag, h]
  unfold decryptIntended getRangeTo
  rw [if_pos hlen]
  have htake : (encrypt password nonce m).take 12 = nonce := by
    unfold encrypt
    rw [← h, List.take_left]
  have hdrop : (encrypt password nonce m).drop 12
      = aeadEncrypt (hashCompute password) nonce m := by
    unfold encrypt
    rw [← h, List.drop_left]
  rw [htake, hdrop]
  simp [aeadDecrypt_aeadEncrypt]

/-- C2.  Evaluation of the code at the failing input: with the empty
password, a twelve-zero-byte nonce and the empty message, the claimed
round trip `decrypt(p, encrypt(p, m)) = m` does not hold — the source
passes `data.get(..12)` (the nonce) instead of the bytes after the nonce
to AEAD decryption, so `decrypt` returns the generic "Wrong password"
error instead of `m`. -/
theorem decrypt_encrypt_code_evaluation :
    decrypt [] (encrypt [] (List.replicate 12 0) [])
      = .error (CipherError.DecryptionError "Wrong password") :=
  decrypt_encrypt_wrong_password [] (List.replicate 12 0) [] (by decide)

/-- C5.  For every password and every input shorter than 12 bytes,
`decrypt` fails with the "Missing nonce" error, before any authenticated
decryption is attempted. -/
theorem decrypt_missing_nonce (password data : List Nat) (h : data.length < 12) :
    decrypt password data = .error (CipherError.DecryptionError "Missing nonce") := by
  unfold decrypt getRangeTo
  rw [if_neg (by omega)]

/-- Witness for C5 at a 3-byte input. -/
theorem decrypt_missing_nonce_witness :
    ([1, 2, 3] : List Nat).length < 12
    ∧ decrypt [5] [1, 2, 3] = .error (CipherError.DecryptionError "Missing nonce") :=
  ⟨by decide, decrypt_missing_nonce [5] [1, 2, 3] (by decide)⟩

/-- C8.  For every password and every input of at least 12 bytes on which
the AEAD step fails, `decrypt` returns the single generic
`DecryptionError "Wrong password"` — one error class regardless of
whether the password or the ciphertext was at fault. -/
theorem decrypt_generic_error_on_auth_failure (password data : List Nat)
    (h12 : 12 ≤ data.length)
    (hfail : aeadDecrypt (hashCompute password) (data.take 12) (data.take 12) = none) :
    decrypt password data = .error (CipherError.DecryptionError "Wrong password") := by
  rw [decrypt_eq_of_length password data h12, hfail]

/-- Witness for C8 at a 12-byte input (on which the AEAD step fails,
lacking room for the 16-byte tag). -/
theorem decrypt_generic_error_on_auth_failure_witness :
    12 ≤ (List.replicate 12 (0 : Nat)).length
    ∧ decrypt [] (List.replicate 12 0)
      = .error (CipherError.DecryptionError "Wrong password") :=
  ⟨by decide,
   decrypt_generic_error_on_auth_failure [] (List.replicate 12 0) (by decide) (by decide)⟩

/-- C9.  For every password, two inputs of length at least 12 that agree
on their first 12 bytes produce identical `decrypt` results: bytes beyond
the first 12 never influence the outcome. -/
theorem decrypt_ignores_bytes_after_nonce (password d1 d2 : List Nat)
    (h1 : 12 ≤ d1.length) (h2 : 12 ≤ d2.length) (h : d1.take 12 = d2.take 12) :
    decrypt password d1 = decrypt password d2 := by
  rw [decrypt_eq_of_length password d1 h1, decrypt_eq_of_length password d2 h2, h]

/-- Witness for C9: two buffers differing only after the first 12 bytes. -/
theorem decrypt_ignores_bytes_after_nonce_witness :
    decrypt [3] (List.replicate 12 0 ++ [1]) = decrypt [3] (List.replicate 12 0 ++ [2]) :=
  decrypt_ignores_bytes_after_nonce [3] (List.replicate 12 0 ++ [1])
    (List.replicate 12 0 ++ [2]) (by decide) (by decide) (by decide)

/-- C10.  The "Missing content" branch of `decrypt` is unreachable: its
guard is the same `data.get(..12)` lookup already checked by the nonce
extraction, so no input ever produces that error. -/
theorem decrypt_missing_content_unreachable (password data : List Nat) :
    decrypt password data ≠ .error (CipherError.DecryptionError "Missing content") := by
  by_cases h : 12 ≤ data.length
  · rw [decrypt_eq_of_length password data h]
    cases aeadDecrypt (hashCompute password) (data.take 12) (data.take 12) with
    | none =>
      intro hcontra
      simp only [Except.error.injEq, CipherError.DecryptionError.injEq] at hcontra
      exact absurd hcontra (by decide)
    | some m =>
      intro hcontra
      exact absurd hcontra (by simp)
  · have herr : decrypt password data
        = .error (CipherError.DecryptionError "Missing nonce") := by
      unfold decrypt getRangeTo
      rw [if_neg (by omega)]
    rw [herr]
    intro hcontra
    simp only [Except.error.injEq, CipherError.DecryptionError.injEq] at hcontra
    exact absurd hcontra (by decide)

end Massa
